import Mathlib

/-!
Shallow embedding of the AML QuickLook metric-and-spotlight engine
(`app.py`): the pure aggregation functions `totals`, `hourly`,
`dom_intl`, `extremes`, `channel_mix`, the deterministic spotlight
rules `spotlights`, and the JSON serialization boundary `to_builtin`.

Conventions of the embedding:
* transaction amounts are exact rationals (`ℚ`);
* `tx_datetime` is seconds since the epoch (`ℤ`); the hour of day is
  derived from it, as `Series.dt.hour` derives it from the timestamp;
* a pandas `median()` / `max()` of an empty series is `NaN`; every value
  that can be `NaN` is an `Option ℚ` with `none` standing for `NaN`
  (in the imbalance result, `none` stands for `float("inf")`, the only
  non-finite value that branch produces); Python's `max(NaN, 1)` is
  `NaN` and `NaN > 3` is `False`, which the `Option` plumbing mirrors;
* `value_counts()` over hours is the list of nonzero per-hour-of-day
  counts (its ordering is irrelevant to the `median` / `max` consumers);
* `groupby` emits its groups in sorted key order (pandas default
  `sort=True`); the subsequent `sort_values` is modelled as a stable
  sort over those groups.
-/

/-- A transaction record: one row of the parsed CSV. -/
structure Tx where
  tx_datetime : Int
  amount : ℚ
  counterparty_country_code : String
  channel : String
  deriving DecidableEq, Repr

/-- Hour-of-day component of the timestamp (`Series.dt.hour`). -/
def Tx.hour (t : Tx) : Nat :=
  (t.tx_datetime.emod 86400).toNat / 3600

/-- Sum of the signed amounts of a table (`Series.sum`, 0 on empty). -/
def sumAmounts (df : List Tx) : ℚ :=
  (df.map Tx.amount).sum

/-- One side of the directional totals: `{"count": …, "value": …}`. -/
structure SideTotal where
  count : Nat
  value : ℚ
  deriving DecidableEq, Repr

/-- Result of `totals`. -/
structure Totals where
  deposits : SideTotal
  withdrawals : SideTotal
  deriving DecidableEq, Repr

/-- `totals(df)`: deposits are rows with `amount > 0`, withdrawals rows
with `amount < 0`; withdrawal value is the absolute value of the sum. -/
def totals (df : List Tx) : Totals :=
  let dep := df.filter (fun t => 0 < t.amount)
  let wd := df.filter (fun t => t.amount < 0)
  ⟨⟨dep.length, sumAmounts dep⟩, ⟨wd.length, |sumAmounts wd|⟩⟩

/-- `hourly(df)`: per-hour transaction counts, reindexed to the dense
hours `0..23` with `fill_value=0`, as (hour, count) pairs in ascending
hour order. -/
def hourly (df : List Tx) : List (Nat × Nat) :=
  (List.range 24).map (fun h => (h, (df.filter (fun t => t.hour = h)).length))

/-- One side of the domestic/international split. -/
structure SideValue where
  count : Nat
  value : ℚ
  deriving DecidableEq, Repr

/-- Result of `dom_intl`. -/
structure DomIntl where
  domestic : SideValue
  international : SideValue
  deriving DecidableEq, Repr

/-- `dom_intl(df, home)`: group by `counterparty_country_code == home`;
each side reports its row count and the absolute value of its summed
signed amount; a side absent from the groupby index reports
`count=0, value=0.0` (the embedding's empty filter gives exactly that). -/
def dom_intl (df : List Tx) (home : String) : DomIntl :=
  let d := df.filter (fun t => t.counterparty_country_code = home)
  let i := df.filter (fun t => t.counterparty_country_code ≠ home)
  ⟨⟨d.length, |sumAmounts d|⟩, ⟨i.length, |sumAmounts i|⟩⟩

/-- First element attaining the maximum of `f`, replaced only on a
strict increase — the row `nlargest(1, "amount")` keeps (`keep='first'`). -/
def firstMaxBy (f : Tx → ℚ) : List Tx → Option Tx
  | [] => none
  | t :: ts =>
    match firstMaxBy f ts with
    | none => some t
    | some u => if f t < f u then some u else some t

/-- First element attaining the minimum of `f`, replaced only on a
strict decrease — the row `nsmallest(1, "amount")` keeps (`keep='first'`). -/
def firstMinBy (f : Tx → ℚ) : List Tx → Option Tx
  | [] => none
  | t :: ts =>
    match firstMinBy f ts with
    | none => some t
    | some u => if f u < f t then some u else some t

/-- Result of `extremes`; a `none` models the empty one-row frame. -/
structure Extremes where
  largest_deposit : Option Tx
  largest_withdrawal : Option Tx
  deriving DecidableEq, Repr

/-- `extremes(df)`: the single largest deposit and the single
smallest (largest-magnitude) withdrawal, or absent on an empty side. -/
def extremes (df : List Tx) : Extremes :=
  ⟨firstMaxBy Tx.amount (df.filter (fun t => 0 < t.amount)),
   firstMinBy Tx.amount (df.filter (fun t => t.amount < 0))⟩

/-- Insert `x` into `l` before the first element `y` with `le x y`;
the insertion step of a stable insertion sort. -/
def insertBy {α : Type} (le : α → α → Bool) (x : α) : List α → List α
  | [] => [x]
  | y :: ys => if le x y then x :: y :: ys else y :: insertBy le x ys

/-- Stable insertion sort by the boolean relation `le`. -/
def sortBy {α : Type} (le : α → α → Bool) : List α → List α
  | [] => []
  | x :: xs => insertBy le x (sortBy le xs)

/-- One row of the channel-mix table. -/
structure ChannelRow where
  channel : String
  count : Nat
  value : ℚ
  deriving DecidableEq, Repr

/-- `channel_mix(df)`: group by `channel` (pandas emits group keys in
sorted order), aggregate `count="size", value="sum"`, take `.abs()`
(counts are unchanged), and `sort_values("value", ascending=False)`. -/
def channel_mix (df : List Tx) : List ChannelRow :=
  let keys := sortBy (fun a b => decide (a ≤ b)) (df.map Tx.channel).dedup
  let rows := keys.map (fun c =>
    ChannelRow.mk c (df.filter (fun t => t.channel = c)).length
      |sumAmounts (df.filter (fun t => t.channel = c))|)
  sortBy (fun r s => decide (s.value ≤ r.value)) rows

/-- The nonzero per-hour-of-day counts of a table:
`Series.dt.hour.value_counts()` as a bare list of counts (the ordering
is irrelevant to its `median` / `max` consumers). -/
def hourValueCounts (df : List Tx) : List ℚ :=
  ((List.range 24).filter
      (fun h => (df.filter (fun t => t.hour = h)).length ≠ 0)).map
    (fun h => ((df.filter (fun t => t.hour = h)).length : ℚ))

/-- `Series.max()`: `none` (NaN) on an empty series. -/
def listMax {α : Type} [LinearOrder α] : List α → Option α
  | [] => none
  | x :: xs => some (xs.foldl max x)

/-- `Series.median()`: sort ascending; middle element for odd length,
mean of the two middle elements for even length; `none` (NaN) on empty. -/
def median (l : List ℚ) : Option ℚ :=
  let s := sortBy (fun a b => decide (a ≤ b)) l
  let n := l.length
  if n = 0 then none
  else if n % 2 = 1 then s[n / 2]?
  else
    match s[n / 2 - 1]?, s[n / 2]? with
    | some a, some b => some ((a + b) / 2)
    | _, _ => none

/-- `win_max`: maximum per-hour-of-day count within the window
(`df_win.tx_datetime.dt.hour.value_counts().max()`). -/
def win_max (df_win : List Tx) : Option ℚ :=
  listMax (hourValueCounts df_win)

/-- Trailing-90-day slice of the history:
`df_hist[df_hist.tx_datetime >= df_win.tx_datetime.max() - 90 days]`.
An empty window has max timestamp `NaT`, and every `>= NaT` comparison
is false, so the slice is empty. -/
def hist_window (df_win df_hist : List Tx) : List Tx :=
  match listMax (df_win.map Tx.tx_datetime) with
  | none => []
  | some m => df_hist.filter (fun t => m - 7776000 ≤ t.tx_datetime)

/-- `hist_med`: median per-hour-of-day count over the trailing-90-day
history (`…value_counts().median()`), NaN (`none`) when that slice is
empty. -/
def hist_med (df_win df_hist : List Tx) : Option ℚ :=
  median (hourValueCounts (hist_window df_win df_hist))

/-- The burst spotlight `{"flag": …, "score": …}`; `score = none`
models NaN. -/
structure BurstSpot where
  flag : Bool
  score : Option ℚ
  deriving DecidableEq, Repr

/-- The imbalance spotlight `{"flag": …, "ratio": …}`; `score = none`
models `float("inf")`. -/
structure ImbalanceSpot where
  flag : Bool
  score : Option ℚ
  deriving DecidableEq, Repr

/-- Burst rule: `score = win_max / max(hist_med, 1)`, `flag = score > 3`.
When either operand is NaN the score is NaN and the flag false
(`max(NaN, 1)` is NaN, `NaN > 3` is `False` in Python). -/
def burst (df_win df_hist : List Tx) : BurstSpot :=
  match win_max df_win, hist_med df_win df_hist with
  | some w, some m => ⟨decide (3 < w / max m 1), some (w / max m 1)⟩
  | _, _ => ⟨false, none⟩

/-- Imbalance rule: `dep` = sum of positive amounts, `wd` = absolute sum
of negative amounts; on `dep == 0` the flag is unconditionally true and
the ratio infinite, otherwise `ratio = wd/dep` and `flag = ratio > 1.2`. -/
def imbalance (df_win : List Tx) : ImbalanceSpot :=
  let dep := sumAmounts (df_win.filter (fun t => 0 < t.amount))
  let wd := |sumAmounts (df_win.filter (fun t => t.amount < 0))|
  if dep = 0 then ⟨true, none⟩
  else ⟨decide (6 / 5 < wd / dep), some (wd / dep)⟩

/-- Result of `spotlights`. -/
structure Spots where
  burst : BurstSpot
  imbalance : ImbalanceSpot
  deriving DecidableEq, Repr

/-- `spotlights(df_win, df_hist)`: the two deterministic rules. -/
def spotlights (df_win df_hist : List Tx) : Spots :=
  ⟨burst df_win df_hist, imbalance df_win⟩

/-- A Python value reaching the serialization boundary: the builtin
primitives JSON knows, the NumPy scalar wrappers (`np.generic`
subclasses, carrying the builtin value their `.item()` returns), and
`other` for any object of an unrecognized type. -/
inductive PyVal where
  | str : String → PyVal
  | int : Int → PyVal
  | rat : ℚ → PyVal
  | bool : Bool → PyVal
  | pyNone : PyVal
  | list : List PyVal → PyVal
  | dict : List (String × PyVal) → PyVal
  | npInt : Int → PyVal
  | npFloat : ℚ → PyVal
  | npBool : Bool → PyVal
  | other : String → PyVal
  deriving Repr

/-- A serialized JSON value. -/
inductive JVal where
  | str : String → JVal
  | num : ℚ → JVal
  | bool : Bool → JVal
  | null : JVal
  | arr : List JVal → JVal
  | obj : List (String × JVal) → JVal
  deriving Repr

/-- `to_builtin(obj)`: a NumPy scalar (`isinstance(obj, np.generic)`)
becomes `obj.item()`, its builtin equivalent; anything else raises
`TypeError`. -/
def to_builtin : PyVal → Except String PyVal
  | .npInt n => .ok (.int n)
  | .npFloat q => .ok (.rat q)
  | .npBool b => .ok (.bool b)
  | _ => .error "TypeError"

/-- Encoding of the builtin scalar handed back by the `default` hook
(`.item()` only ever yields `int`, `float` or `bool`). -/
def encodeLeaf : PyVal → Except String JVal
  | .str s => .ok (.str s)
  | .int n => .ok (.num n)
  | .rat q => .ok (.num q)
  | .bool b => .ok (.bool b)
  | .pyNone => .ok .null
  | _ => .error "TypeError"

mutual

/-- `json.dumps(…, default=to_builtin)`: primitives encode directly,
containers recurse, and every value of an unrecognized type is passed
to the `default` hook `to_builtin`, whose `TypeError` propagates. -/
def dumps : PyVal → Except String JVal
  | .str s => .ok (.str s)
  | .int n => .ok (.num n)
  | .rat q => .ok (.num q)
  | .bool b => .ok (.bool b)
  | .pyNone => .ok .null
  | .list xs => do
    let a ← dumpsArr xs
    return .arr a
  | .dict kvs => do
    let o ← dumpsObj kvs
    return .obj o
  | v => do
    let b ← to_builtin v
    encodeLeaf b

/-- Serialize the elements of a JSON array. -/
def dumpsArr : List PyVal → Except String (List JVal)
  | [] => .ok []
  | x :: xs => do
    let jx ← dumps x
    let jxs ← dumpsArr xs
    return jx :: jxs

/-- Serialize the entries of a JSON object. -/
def dumpsObj : List (String × PyVal) → Except String (List (String × JVal))
  | [] => .ok []
  | (k, x) :: kvs => do
    let jx ← dumps x
    let jkvs ← dumpsObj kvs
    return (k, jx) :: jkvs

end

/-- Scenario A of the spec: three deposits of 100, 200, 300 and one
withdrawal of -50, all domestic ("ZA"). -/
def scenA : List Tx :=
  [⟨0, 100, "ZA", "EFT"⟩, ⟨60, 200, "ZA", "EFT"⟩,
   ⟨120, 300, "ZA", "EFT"⟩, ⟨180, -50, "ZA", "ATM"⟩]

/-- Scenario C of the spec: five transactions, all in hour 14. -/
def win14 : List Tx :=
  [⟨50400, 10, "ZA", "EFT"⟩, ⟨50460, 10, "ZA", "EFT"⟩,
   ⟨50520, 10, "ZA", "EFT"⟩, ⟨50580, 10, "ZA", "EFT"⟩,
   ⟨50640, 10, "ZA", "EFT"⟩]

/-- Two channels with equal absolute value, "EFT" encountered first. -/
def exTie : List Tx := [⟨0, 10, "ZA", "EFT"⟩, ⟨60, 10, "ZA", "ATM"⟩]

/-- Scenario D of the spec: "ATM" net -500 over 3 rows, "EFT" net +1000
over 2 rows. -/
def exD : List Tx :=
  [⟨0, -200, "ZA", "ATM"⟩, ⟨60, -200, "ZA", "ATM"⟩,
   ⟨120, -100, "ZA", "ATM"⟩, ⟨180, 400, "ZA", "EFT"⟩,
   ⟨240, 600, "ZA", "EFT"⟩]

/-- Scenario B of the spec: a single withdrawal of -10 and no deposit. -/
def wdOnly : List Tx := [⟨0, -10, "ZA", "ATM"⟩]

/-- A window with one deposit of 10 and one withdrawal of -20. -/
def mixedWin : List Tx := [⟨0, 10, "ZA", "EFT"⟩, ⟨60, -20, "ZA", "ATM"⟩]

/-- A one-transaction window at hour 3. -/
def oneTx : List Tx := [⟨10800, 5, "ZA", "EFT"⟩]

/-- A history whose transactions all fall in hour 7. -/
def hist7 : List Tx :=
  [⟨25200, 7, "ZA", "EFT"⟩, ⟨25260, 7, "ZA", "EFT"⟩, ⟨25320, 7, "ZA", "EFT"⟩]

/-! Helper lemmas about the embedding's building blocks. -/

theorem Tx.hour_lt_24 (t : Tx) : t.hour < 24 := by
  have h1 : t.tx_datetime.emod 86400 < 86400 :=
    Int.emod_lt_of_pos _ (by omega)
  have h2 : (t.tx_datetime.emod 86400).toNat < 3600 * 24 := by omega
  exact Nat.div_lt_of_lt_mul h2

theorem insertBy_perm {α : Type} (le : α → α → Bool) (x : α) (l : List α) :
    List.Perm (insertBy le x l) (x :: l) := by
  induction l with
  | nil => simp [insertBy]
  | cons y ys ih =>
    by_cases h : le x y = true
    · simp [insertBy, h]
    · simp only [insertBy, h]
      rw [if_neg (by simp [h])]
      exact (ih.cons y).trans (List.Perm.swap x y ys)

theorem sortBy_perm {α : Type} (le : α → α → Bool) (l : List α) :
    List.Perm (sortBy le l) l := by
  induction l with
  | nil => simp [sortBy]
  | cons x xs ih =>
    exact (insertBy_perm le x (sortBy le xs)).trans (ih.cons x)

theorem mem_insertBy {α : Type} (le : α → α → Bool) (x z : α) (l : List α) :
    z ∈ insertBy le x l ↔ z = x ∨ z ∈ l := by
  rw [(insertBy_perm le x l).mem_iff]
  simp

theorem pairwise_insertBy {α : Type} (le : α → α → Bool)
    (htot : ∀ a b, le a b = true ∨ le b a = true)
    (htrans : ∀ a b c, le a b = true → le b c = true → le a c = true)
    (x : α) (l : List α) (hl : l.Pairwise (fun a b => le a b = true)) :
    (insertBy le x l).Pairwise (fun a b => le a b = true) := by
  induction l with
  | nil => simp [insertBy]
  | cons y ys ih =>
    rcases List.pairwise_cons.mp hl with ⟨hy, hys⟩
    by_cases h : le x y = true
    · rw [insertBy, if_pos h]
      refine List.pairwise_cons.mpr ⟨?_, hl⟩
      intro z hz
      rcases List.mem_cons.mp hz with hz | hz
      · exact hz ▸ h
      · exact htrans x y z h (hy z hz)
    · rw [insertBy, if_neg (by simp [h])]
      refine List.pairwise_cons.mpr ⟨?_, ih hys⟩
      intro z hz
      rcases (mem_insertBy le x z ys).mp hz with hz | hz
      · rw [hz]
        rcases htot x y with hxy | hyx
        · exact absurd hxy h
        · exact hyx
      · exact hy z hz

theorem pairwise_sortBy {α : Type} (le : α → α → Bool)
    (htot : ∀ a b, le a b = true ∨ le b a = true)
    (htrans : ∀ a b c, le a b = true → le b c = true → le a c = true)
    (l : List α) :
    (sortBy le l).Pairwise (fun a b => le a b = true) := by
  induction l with
  | nil => simp [sortBy]
  | cons x xs ih => exact pairwise_insertBy le htot htrans x (sortBy le xs) ih

theorem sum_map_add_nat {β : Type} (K : List β) (f g : β → ℕ) :
    (K.map fun c => f c + g c).sum = (K.map f).sum + (K.map g).sum := by
  induction K with
  | nil => simp
  | cons c K ih => simp [ih]; omega

theorem sum_indicator_of_notMem {β : Type} [DecidableEq β]
    (K : List β) (x : β) (hx : x ∉ K) :
    (K.map fun c => if x = c then (1 : ℕ) else 0).sum = 0 := by
  induction K with
  | nil => simp
  | cons c K ih =>
    have hxc : x ≠ c := fun h => hx (h ▸ List.mem_cons_self c K)
    have hxK : x ∉ K := fun h => hx (List.mem_cons_of_mem c h)
    simp [hxc, ih hxK]

theorem sum_indicator_of_nodup {β : Type} [DecidableEq β]
    (K : List β) (x : β) (hnd : K.Nodup) (hx : x ∈ K) :
    (K.map fun c => if x = c then (1 : ℕ) else 0).sum = 1 := by
  induction K with
  | nil => cases hx
  | cons c K ih =>
    rcases List.nodup_cons.mp hnd with ⟨hc, hK⟩
    by_cases hxc : x = c
    · subst hxc
      simp [sum_indicator_of_notMem K x hc]
    · rcases List.mem_cons.mp hx with hx | hx
      · exact absurd hx hxc
      · simp [hxc, ih hK hx]

theorem sum_filter_lengths {α β : Type} [DecidableEq β]
    (key : α → β) (K : List β) (hnd : K.Nodup) (l : List α)
    (hcov : ∀ a ∈ l, key a ∈ K) :
    (K.map fun c => (l.filter (fun a => key a = c)).length).sum = l.length := by
  induction l with
  | nil => simp
  | cons a l ih =>
    have hrec : ∀ c : β, ((a :: l).filter (fun a' => key a' = c)).length
        = (if key a = c then (1 : ℕ) else 0)
          + (l.filter (fun a' => key a' = c)).length := by
      intro c
      by_cases h : key a = c <;> simp [List.filter_cons, h, Nat.add_comm]
    have hcov' : ∀ a' ∈ l, key a' ∈ K := fun a' h => hcov a' (List.mem_cons_of_mem a h)
    calc (K.map fun c => ((a :: l).filter (fun a' => key a' = c)).length).sum
        = (K.map fun c => (if key a = c then (1 : ℕ) else 0)
            + (l.filter (fun a' => key a' = c)).length).sum := by
          simp only [hrec]
      _ = (K.map fun c => if key a = c then (1 : ℕ) else 0).sum
            + (K.map fun c => (l.filter (fun a' => key a' = c)).length).sum :=
          sum_map_add_nat K _ _
      _ = 1 + l.length := by
          rw [sum_indicator_of_nodup K (key a) hnd (hcov a (List.mem_cons_self a l)),
            ih hcov']
      _ = (a :: l).length := by simp [Nat.add_comm]

theorem filter_length_partition (home : String) (l : List Tx) :
    (l.filter (fun t => t.counterparty_country_code = home)).length
      + (l.filter (fun t => t.counterparty_country_code ≠ home)).length
      = l.length := by
  induction l with
  | nil => simp
  | cons a l ih =>
    by_cases h : a.counterparty_country_code = home <;>
      simp [List.filter_cons, h, decide_not] at ih ⊢ <;> omega

theorem filter_length_trichotomy (l : List Tx) :
    (l.filter (fun t => 0 < t.amount)).length
      + (l.filter (fun t => t.amount < 0)).length
      + (l.filter (fun t => t.amount = 0)).length = l.length := by
  induction l with
  | nil => simp
  | cons a l ih =>
    rcases lt_trichotomy a.amount 0 with h | h | h
    · have h1 : ¬ (0 < a.amount) := by linarith
      have h2 : ¬ (a.amount = 0) := by linarith
      simp [List.filter_cons, h, h1, h2]
      omega
    · have h1 : ¬ (0 < a.amount) := by simp [h]
      have h2 : ¬ (a.amount < 0) := by simp [h]
      simp [List.filter_cons, h, h1, h2]
      omega
    · have h1 : ¬ (a.amount < 0) := by linarith
      have h2 : ¬ (a.amount = 0) := by linarith
      simp [List.filter_cons, h, h1, h2]
      omega

theorem firstMaxBy_eq_none_iff (f : Tx → ℚ) (l : List Tx) :
    firstMaxBy f l = none ↔ l = [] := by
  cases l with
  | nil => simp [firstMaxBy]
  | cons t ts =>
    simp only [firstMaxBy]
    cases firstMaxBy f ts with
    | none => simp
    | some u => by_cases h : f t < f u <;> simp [h]

theorem firstMaxBy_spec (f : Tx → ℚ) (l : List Tx) (t : Tx)
    (ht : firstMaxBy f l = some t) :
    t ∈ l ∧ (∀ u ∈ l, f u ≤ f t)
      ∧ ∃ l₁ l₂, l = l₁ ++ t :: l₂ ∧ ∀ u ∈ l₁, f u < f t := by
  induction l generalizing t with
  | nil => cases ht
  | cons a l ih =>
    rw [firstMaxBy] at ht
    cases hrec : firstMaxBy f l with
    | none =>
      rw [hrec] at ht
      dsimp only at ht
      have hl : l = [] := (firstMaxBy_eq_none_iff f l).mp hrec
      cases ht
      subst hl
      refine ⟨List.mem_cons_self a [], ?_, [], [], rfl, by simp⟩
      intro u hu
      rcases List.mem_cons.mp hu with hu | hu
      · exact le_of_eq (by rw [hu])
      · cases hu
    | some u =>
      rw [hrec] at ht
      dsimp only at ht
      rcases ih u hrec with ⟨hmem, hmax, l₁, l₂, hsplit, hfirst⟩
      by_cases h : f a < f u
      · rw [if_pos h] at ht
        cases ht
        refine ⟨List.mem_cons_of_mem a hmem, ?_, a :: l₁, l₂, by simp [hsplit], ?_⟩
        · intro v hv
          rcases List.mem_cons.mp hv with hv | hv
          · exact le_of_lt (hv ▸ h)
          · exact hmax v hv
        · intro v hv
          rcases List.mem_cons.mp hv with hv | hv
          · exact hv ▸ h
          · exact hfirst v hv
      · rw [if_neg h] at ht
        cases ht
        refine ⟨List.mem_cons_self a l, ?_, [], l, rfl, by simp⟩
        intro v hv
        rcases List.mem_cons.mp hv with hv | hv
        · exact le_of_eq (by rw [hv])
        · exact le_trans (hmax v hv) (not_lt.mp h)

theorem firstMinBy_eq_none_iff (f : Tx → ℚ) (l : List Tx) :
    firstMinBy f l = none ↔ l = [] := by
  cases l with
  | nil => simp [firstMinBy]
  | cons t ts =>
    simp only [firstMinBy]
    cases firstMinBy f ts with
    | none => simp
    | some u => by_cases h : f u < f t <;> simp [h]

theorem firstMinBy_spec (f : Tx → ℚ) (l : List Tx) (t : Tx)
    (ht : firstMinBy f l = some t) :
    t ∈ l ∧ (∀ u ∈ l, f t ≤ f u)
      ∧ ∃ l₁ l₂, l = l₁ ++ t :: l₂ ∧ ∀ u ∈ l₁, f t < f u := by
  induction l generalizing t with
  | nil => cases ht
  | cons a l ih =>
    rw [firstMinBy] at ht
    cases hrec : firstMinBy f l with
    | none =>
      rw [hrec] at ht
      dsimp only at ht
      have hl : l = [] := (firstMinBy_eq_none_iff f l).mp hrec
      cases ht
      subst hl
      refine ⟨List.mem_cons_self a [], ?_, [], [], rfl, by simp⟩
      intro u hu
      rcases List.mem_cons.mp hu with hu | hu
      · exact le_of_eq (by rw [hu])
      · cases hu
    | some u =>
      rw [hrec] at ht
      dsimp only at ht
      rcases ih u hrec with ⟨hmem, hmin, l₁, l₂, hsplit, hfirst⟩
      by_cases h : f u < f a
      · rw [if_pos h] at ht
        cases ht
        refine ⟨List.mem_cons_of_mem a hmem, ?_, a :: l₁, l₂, by simp [hsplit], ?_⟩
        · intro v hv
          rcases List.mem_cons.mp hv with hv | hv
          · exact le_of_lt (hv ▸ h)
          · exact hmin v hv
        · intro v hv
          rcases List.mem_cons.mp hv with hv | hv
          · exact hv ▸ h
          · exact hfirst v hv
      · rw [if_neg h] at ht
        cases ht
        refine ⟨List.mem_cons_self a l, ?_, [], l, rfl, by simp⟩
        intro v hv
        rcases List.mem_cons.mp hv with hv | hv
        · exact le_of_eq (by rw [hv])
        · exact le_trans (not_lt.mp h) (hmin v hv)

theorem range_filter_decide_eq (x n : ℕ) :
    (List.range n).filter (fun h => decide (h = x))
      = if x < n then [x] else [] := by
  induction n with
  | zero => simp
  | succ n ih =>
    rw [List.range_succ, List.filter_append, ih]
    by_cases h1 : x < n
    · have h2 : ¬ (n = x) := by omega
      have h3 : x < n + 1 := by omega
      simp [h1, h2, h3]
    · by_cases h3 : x = n
      · subst h3
        simp [h1]
      · have h4 : ¬ x < n + 1 := by omega
        have h5 : ¬ (n = x) := fun hh => h3 hh.symm
        simp [h1, h4, h5]

theorem hourValueCounts_all_single (l : List Tx) (h₀ : ℕ) (hne : l ≠ [])
    (hall : ∀ t ∈ l, t.hour = h₀) :
    hourValueCounts l = [(l.length : ℚ)] := by
  have hfilter : ∀ h : ℕ, l.filter (fun t => t.hour = h)
      = if h = h₀ then l else [] := by
    intro h
    by_cases hh : h = h₀
    · subst hh
      rw [if_pos rfl]
      exact List.filter_eq_self.mpr (fun t ht => by simp [hall t ht])
    · rw [if_neg hh]
      refine List.filter_eq_nil_iff.mpr (fun t ht => ?_)
      simp only [decide_eq_true_eq]
      intro hcon
      exact hh (hcon.symm.trans (hall t ht))
  obtain ⟨t0, ht0⟩ := List.exists_mem_of_ne_nil l hne
  have hlt : h₀ < 24 := (hall t0 ht0) ▸ Tx.hour_lt_24 t0
  have hlen : l.length ≠ 0 := fun hl => hne (List.length_eq_zero.mp hl)
  have hpred : ∀ h ∈ List.range 24,
      (decide ((l.filter (fun t => t.hour = h)).length ≠ 0))
        = decide (h = h₀) := by
    intro h _
    rw [hfilter h]
    by_cases hh : h = h₀ <;> simp [hh, hlen]
  rw [hourValueCounts, List.filter_congr hpred, range_filter_decide_eq,
    if_pos hlt]
  simp [hfilter]

theorem median_single (q : ℚ) : median [q] = some q := by
  simp [median, sortBy, insertBy]

theorem hist_med_of_empty (df_win df_hist : List Tx)
    (h : hist_window df_win df_hist = []) :
    hist_med df_win df_hist = none := by
  rw [hist_med, h]
  rfl

/-- Claim C5: for every transaction table, `hourly` returns exactly 24
entries for hours 0 through 23 in ascending hour order, with 0 for hours
having no transactions (each entry is that hour's transaction count),
and the 24 entries sum to the table's total transaction count. -/
theorem hourly_dense_24 (df : List Tx) :
    (hourly df).length = 24
      ∧ (hourly df).map Prod.fst = List.range 24
      ∧ (∀ h cnt, (h, cnt) ∈ hourly df →
          cnt = (df.filter (fun t => t.hour = h)).length)
      ∧ ((hourly df).map Prod.snd).sum = df.length := by
  refine ⟨by simp [hourly], by rw [hourly, List.map_map]; exact List.map_id _, ?_, ?_⟩
  · intro h cnt hmem
    simp only [hourly, List.mem_map, List.mem_range] at hmem
    obtain ⟨h', _, heq⟩ := hmem
    cases heq
    rfl
  · have hmap : (hourly df).map Prod.snd
        = (List.range 24).map (fun h => (df.filter (fun t => t.hour = h)).length) := by
      simp [hourly, List.map_map]
    rw [hmap]
    exact sum_filter_lengths Tx.hour (List.range 24) (List.nodup_range 24) df
      (fun t _ => List.mem_range.mpr (Tx.hour_lt_24 t))

/-- Claim C5, witness: the hour-14 entry of `hourly win14` is the count
of the window's hour-14 transactions. -/
theorem hourly_dense_24_witness :
    (14, 5) ∈ hourly win14
      ∧ 5 = (win14.filter (fun t => t.hour = 14)).length :=
  ⟨by decide, (hourly_dense_24 win14).2.2.1 14 5 (by decide)⟩

/-- Claim C6: `dom_intl` classifies every transaction as exactly one of
domestic or international, so the two counts sum to the table's length,
and an empty side is reported as count 0, value 0.0. -/
theorem dom_intl_partition (df : List Tx) (home : String) :
    (dom_intl df home).domestic.count + (dom_intl df home).international.count
        = df.length
      ∧ (∀ t ∈ df,
          (t.counterparty_country_code = home
              ∧ ¬ t.counterparty_country_code ≠ home)
            ∨ (t.counterparty_country_code ≠ home
              ∧ ¬ t.counterparty_country_code = home))
      ∧ (df.filter (fun t => t.counterparty_country_code = home) = [] →
          (dom_intl df home).domestic = ⟨0, 0⟩)
      ∧ (df.filter (fun t => t.counterparty_country_code ≠ home) = [] →
          (dom_intl df home).international = ⟨0, 0⟩) := by
  refine ⟨?_, ?_, ?_, ?_⟩
  · simpa [dom_intl] using filter_length_partition home df
  · intro t _
    by_cases h : t.counterparty_country_code = home
    · exact Or.inl ⟨h, by simp [h]⟩
    · exact Or.inr ⟨h, h⟩
  · intro h
    show SideValue.mk (df.filter (fun t => t.counterparty_country_code = home)).length
        |sumAmounts (df.filter (fun t => t.counterparty_country_code = home))| = ⟨0, 0⟩
    rw [h]
    simp [sumAmounts]
  · intro h
    show SideValue.mk (df.filter (fun t => t.counterparty_country_code ≠ home)).length
        |sumAmounts (df.filter (fun t => t.counterparty_country_code ≠ home))| = ⟨0, 0⟩
    rw [h]
    simp [sumAmounts]

/-- Claim C6, witness: scenario A has no international transaction and
its international side is reported as count 0, value 0.0. -/
theorem dom_intl_partition_witness :
    (dom_intl scenA "ZA").international = ⟨0, 0⟩ :=
  (dom_intl_partition scenA "ZA").2.2.2 (by decide)

/-- Claim C7: `totals` reports deposit count/value over `amount > 0` and
withdrawal count/absolute value over `amount < 0`; zero-amount rows
contribute to neither side, the three counts sum to the total, and an
empty partition yields count 0, value 0. -/
theorem totals_partition (df : List Tx) :
    (totals df).deposits.count = (df.filter (fun t => 0 < t.amount)).length
      ∧ (totals df).deposits.value = sumAmounts (df.filter (fun t => 0 < t.amount))
      ∧ (totals df).withdrawals.count = (df.filter (fun t => t.amount < 0)).length
      ∧ (totals df).withdrawals.value
          = |sumAmounts (df.filter (fun t => t.amount < 0))|
      ∧ (totals df).deposits.count + (totals df).withdrawals.count
          + (df.filter (fun t => t.amount = 0)).length = df.length
      ∧ (df.filter (fun t => 0 < t.amount) = [] → (totals df).deposits = ⟨0, 0⟩)
      ∧ (df.filter (fun t => t.amount < 0) = [] → (totals df).withdrawals = ⟨0, 0⟩) := by
  refine ⟨rfl, rfl, rfl, rfl, ?_, ?_, ?_⟩
  · simpa [totals] using filter_length_trichotomy df
  · intro h
    simp [totals, h, sumAmounts]
  · intro h
    simp [totals, h, sumAmounts]

/-- Claim C7, witness: a withdrawal-only window reports deposits as
count 0, value 0. -/
theorem totals_partition_witness :
    (totals wdOnly).deposits = ⟨0, 0⟩ :=
  (totals_partition wdOnly).2.2.2.2.2.1 (by decide)

/-- Claim C8: `extremes` returns the transaction with maximum amount
among deposits and minimum amount among withdrawals; ties are broken
deterministically by first occurrence, and an empty partition yields an
absent extreme rather than an error. -/
theorem extremes_spec (df : List Tx) :
    ((extremes df).largest_deposit = none
        ↔ df.filter (fun t => 0 < t.amount) = [])
      ∧ ((extremes df).largest_withdrawal = none
        ↔ df.filter (fun t => t.amount < 0) = [])
      ∧ (∀ t, (extremes df).largest_deposit = some t →
          t ∈ df.filter (fun t => 0 < t.amount)
            ∧ (∀ u ∈ df.filter (fun t => 0 < t.amount), u.amount ≤ t.amount)
            ∧ ∃ l₁ l₂, df.filter (fun t => 0 < t.amount) = l₁ ++ t :: l₂
                ∧ ∀ u ∈ l₁, u.amount < t.amount)
      ∧ (∀ t, (extremes df).largest_withdrawal = some t →
          t ∈ df.filter (fun t => t.amount < 0)
            ∧ (∀ u ∈ df.filter (fun t => t.amount < 0), t.amount ≤ u.amount)
            ∧ ∃ l₁ l₂, df.filter (fun t => t.amount < 0) = l₁ ++ t :: l₂
                ∧ ∀ u ∈ l₁, t.amount < u.amount) := by
  refine ⟨firstMaxBy_eq_none_iff _ _, firstMinBy_eq_none_iff _ _, ?_, ?_⟩
  · intro t ht
    exact firstMaxBy_spec Tx.amount _ t ht
  · intro t ht
    exact firstMinBy_spec Tx.amount _ t ht

/-- Claim C8, witness: scenario A's largest deposit is its 300 deposit,
which belongs to the deposit partition. -/
theorem extremes_spec_witness :
    (⟨120, 300, "ZA", "EFT"⟩ : Tx) ∈ scenA.filter (fun t => 0 < t.amount) :=
  ((extremes_spec scenA).2.2.1 ⟨120, 300, "ZA", "EFT"⟩ (by decide)).1

/-- Claim C3: when the window's positive-amount sum `dep` is 0, the
imbalance spotlight is flagged with an infinite ratio (modelled `none`);
when `dep > 0` the score is `wd/dep` and the flag holds exactly when
that score exceeds 1.2. -/
theorem imbalance_policy (df_win df_hist : List Tx) :
    (sumAmounts (df_win.filter (fun t => 0 < t.amount)) = 0 →
        (spotlights df_win df_hist).imbalance.flag = true
          ∧ (spotlights df_win df_hist).imbalance.score = none)
      ∧ (0 < sumAmounts (df_win.filter (fun t => 0 < t.amount)) →
        (spotlights df_win df_hist).imbalance.score
            = some (|sumAmounts (df_win.filter (fun t => t.amount < 0))|
                / sumAmounts (df_win.filter (fun t => 0 < t.amount)))
          ∧ ((spotlights df_win df_hist).imbalance.flag = true
              ↔ 6 / 5 < |sumAmounts (df_win.filter (fun t => t.amount < 0))|
                  / sumAmounts (df_win.filter (fun t => 0 < t.amount)))) := by
  constructor
  · intro h
    simp [spotlights, imbalance, h]
  · intro h
    have h' : sumAmounts (df_win.filter (fun t => 0 < t.amount)) ≠ 0 :=
      ne_of_gt h
    simp [spotlights, imbalance, h']

/-- Claim C3, witness: scenario B (one withdrawal, no deposit) is
flagged with infinite ratio, and a 10-deposit/20-withdrawal window gets
score `wd/dep`. -/
theorem imbalance_policy_witness :
    ((spotlights wdOnly []).imbalance.flag = true
        ∧ (spotlights wdOnly []).imbalance.score = none)
      ∧ (spotlights mixedWin []).imbalance.score
          = some (|sumAmounts (mixedWin.filter (fun t => t.amount < 0))|
              / sumAmounts (mixedWin.filter (fun t => 0 < t.amount))) :=
  ⟨(imbalance_policy wdOnly []).1 (by decide),
   ((imbalance_policy mixedWin []).2
      (by norm_num [sumAmounts, mixedWin, List.filter_cons])).1⟩

/-- Claim C10: `hist_med` is the median over only the hour-of-day
buckets that occur in the trailing-90-day history (zero-count hours are
not included), so when all those transactions fall in one hour, it
equals that hour's full count. -/
theorem hist_med_single_hour (df_win df_hist : List Tx) (h₀ : ℕ)
    (hne : hist_window df_win df_hist ≠ [])
    (hall : ∀ t ∈ hist_window df_win df_hist, t.hour = h₀) :
    hist_med df_win df_hist
      = some (((hist_window df_win df_hist).length : ℚ)) := by
  rw [hist_med, hourValueCounts_all_single _ h₀ hne hall, median_single]

/-- Claim C10, witness: a trailing history of three hour-7 transactions
has `hist_med` equal to 3, the full hour-7 count, not a 24-bucket
median. -/
theorem hist_med_single_hour_witness :
    hist_med oneTx hist7 = some (((hist_window oneTx hist7).length : ℚ)) :=
  hist_med_single_hour oneTx hist7 7 (by decide) (by decide)

/-- Claim C2, amended: the burst score is `win_max / max(hist_med, 1)`
whenever both operands are defined; when the trailing-90-day history has
no transactions, `hist_med` is NaN (the median of an empty value-counts
series), so the score is NaN (modelled `none`) and the flag false. -/
theorem burst_policy (df_win df_hist : List Tx) :
    (hist_window df_win df_hist = [] →
        burst df_win df_hist = ⟨false, none⟩)
      ∧ (∀ w m, win_max df_win = some w →
          hist_med df_win df_hist = some m →
        (burst df_win df_hist).score = some (w / max m 1)
          ∧ ((burst df_win df_hist).flag = true ↔ 3 < w / max m 1)) := by
  constructor
  · intro h
    have hm : hist_med df_win df_hist = none := hist_med_of_empty _ _ h
    cases hw : win_max df_win <;> simp [burst, hw, hm]
  · intro w m hw hm
    simp [burst, hw, hm]

/-- Claim C2, witness: scenario C's window (five hour-14 transactions)
with an empty history gets a NaN score and no flag; with the window
itself as history, the score is `5 / max 5 1`. -/
theorem burst_policy_witness :
    burst win14 [] = ⟨false, none⟩
      ∧ (burst win14 win14).score = some (5 / max 5 1) :=
  ⟨(burst_policy win14 []).1 (by decide),
   ((burst_policy win14 win14).2 5 5 (by decide) (by decide)).1⟩

/-- Claim C2, counterexample: for the all-zero trailing history the
claim predicts score `win_max = 5` and flag true, but the code produces
a NaN score (not `win_max`) and flag false. -/
theorem burst_scenC_counterexample :
    (burst win14 []).score ≠ win_max win14
      ∧ win_max win14 = some 5
      ∧ (burst win14 []).flag = false := by decide

/-- Claim C1, amended: on scenario A, `totals` reports deposits
{count 3, value 600} and withdrawals {count 1, value 50}, and `dom_intl`
reports domestic {count 4, value 550} — the absolute value of the net
signed sum 100+200+300-50 — and international {count 0, value 0.0}. -/
theorem scenarioA_metrics :
    totals scenA = ⟨⟨3, 600⟩, ⟨1, 50⟩⟩
      ∧ dom_intl scenA "ZA" = ⟨⟨4, 550⟩, ⟨0, 0⟩⟩ := by
  constructor
  · norm_num [totals, scenA, sumAmounts]
  · norm_num [dom_intl, scenA, sumAmounts]

/-- Claim C1, counterexample: the claimed domestic value 650 (the sum of
absolute amounts) differs from the code's 550 (the absolute value of the
net sum). -/
theorem scenarioA_counterexample :
    (dom_intl scenA "ZA").domestic.value ≠ 650 := by
  norm_num [dom_intl, scenA, sumAmounts]

/-- Claim C4, amended: `channel_mix` has exactly one row per distinct
channel, each row carrying that channel's size and the absolute value of
its net signed sum, sorted by value descending; ties follow the
lexicographically sorted group keys (pandas `groupby` sorts its keys),
not the channels' encounter order; and the row counts sum to the table's
length. -/
theorem channel_mix_spec (df : List Tx) :
    List.Perm ((channel_mix df).map ChannelRow.channel) (df.map Tx.channel).dedup
      ∧ (∀ r ∈ channel_mix df,
          r.count = (df.filter (fun t => t.channel = r.channel)).length
            ∧ r.value = |sumAmounts (df.filter (fun t => t.channel = r.channel))|)
      ∧ (channel_mix df).Pairwise (fun r s => s.value ≤ r.value)
      ∧ ((channel_mix df).map ChannelRow.count).sum = df.length := by
  have hcm : channel_mix df
      = sortBy (fun r s => decide (s.value ≤ r.value))
          ((sortBy (fun a b => decide (a ≤ b)) (df.map Tx.channel).dedup).map
            (fun c => ChannelRow.mk c (df.filter (fun t => t.channel = c)).length
              |sumAmounts (df.filter (fun t => t.channel = c))|)) := rfl
  have hpk : List.Perm (sortBy (fun a b => decide (a ≤ b)) (df.map Tx.channel).dedup)
      (df.map Tx.channel).dedup := sortBy_perm _ _
  have hperm : List.Perm (channel_mix df)
      ((sortBy (fun a b => decide (a ≤ b)) (df.map Tx.channel).dedup).map
        (fun c => ChannelRow.mk c (df.filter (fun t => t.channel = c)).length
          |sumAmounts (df.filter (fun t => t.channel = c))|)) := by
    rw [hcm]
    exact sortBy_perm _ _
  refine ⟨?_, ?_, ?_, ?_⟩
  · have h1 := hperm.map ChannelRow.channel
    rw [List.map_map] at h1
    have h2 : (ChannelRow.channel ∘
        fun c => ChannelRow.mk c (df.filter (fun t => t.channel = c)).length
          |sumAmounts (df.filter (fun t => t.channel = c))|) = id := rfl
    rw [h2, List.map_id] at h1
    exact h1.trans hpk
  · intro r hr
    have hr' := hperm.mem_iff.mp hr
    obtain ⟨c, _, rfl⟩ := List.mem_map.mp hr'
    exact ⟨rfl, rfl⟩
  · rw [hcm]
    have htot : ∀ r s : ChannelRow,
        decide (s.value ≤ r.value) = true ∨ decide (r.value ≤ s.value) = true := by
      intro r s
      rcases le_total s.value r.value with h | h
      · exact Or.inl (decide_eq_true h)
      · exact Or.inr (decide_eq_true h)
    have htrans : ∀ r s u : ChannelRow,
        decide (s.value ≤ r.value) = true → decide (u.value ≤ s.value) = true →
        decide (u.value ≤ r.value) = true := by
      intro r s u h1 h2
      exact decide_eq_true (le_trans (of_decide_eq_true h2) (of_decide_eq_true h1))
    exact (pairwise_sortBy _ htot htrans _).imp (fun h => of_decide_eq_true h)
  · have h1 := (hperm.map ChannelRow.count).sum_eq
    rw [h1, List.map_map]
    have h2 : (ChannelRow.count ∘
        fun c => ChannelRow.mk c (df.filter (fun t => t.channel = c)).length
          |sumAmounts (df.filter (fun t => t.channel = c))|)
        = fun c => (df.filter (fun t => t.channel = c)).length := rfl
    rw [h2]
    refine sum_filter_lengths Tx.channel _ ?_ df ?_
    · exact (hpk.nodup_iff).mpr (List.nodup_dedup _)
    · intro t ht
      exact hpk.mem_iff.mpr (List.mem_dedup.mpr (List.mem_map_of_mem Tx.channel ht))

/-- Claim C4, witness: scenario D's EFT row carries the channel's size 2
and absolute net sum 1000. -/
theorem channel_mix_spec_witness :
    (ChannelRow.mk "EFT" 2 1000).count
        = (exD.filter (fun t => t.channel = (ChannelRow.mk "EFT" 2 1000).channel)).length
      ∧ (ChannelRow.mk "EFT" 2 1000).value
        = |sumAmounts (exD.filter (fun t => t.channel = (ChannelRow.mk "EFT" 2 1000).channel))| :=
  (channel_mix_spec exD).2.1 (ChannelRow.mk "EFT" 2 1000)
    (by simp [channel_mix, exD, sumAmounts, sortBy, insertBy, List.filter_cons]
        norm_num)

/-- Claim C4, counterexample: two channels tie at absolute value 10 with
"EFT" encountered first; the claim's encounter-order tie-break predicts
the EFT row first, but the code emits the ATM row first (groupby sorts
the channel keys). -/
theorem channel_mix_tie_counterexample :
    channel_mix exTie ≠ [⟨"EFT", 1, 10⟩, ⟨"ATM", 1, 10⟩]
      ∧ channel_mix exTie = [⟨"ATM", 1, 10⟩, ⟨"EFT", 1, 10⟩] := by
  have h : channel_mix exTie = [⟨"ATM", 1, 10⟩, ⟨"EFT", 1, 10⟩] := by
    simp [channel_mix, exTie, sumAmounts, sortBy, insertBy, List.filter_cons]
  refine ⟨?_, h⟩
  rw [h]
  decide

/-- Claim C9: the serialization boundary converts every NumPy scalar
wrapper to its builtin equivalent via `to_builtin` before encoding, and
raises `TypeError` on any value that is not a recognized primitive or
NumPy scalar, instead of silently coercing. -/
theorem to_builtin_boundary (n : Int) (q : ℚ) (b : Bool) (s : String) :
    to_builtin (.npInt n) = .ok (.int n)
      ∧ to_builtin (.npFloat q) = .ok (.rat q)
      ∧ to_builtin (.npBool b) = .ok (.bool b)
      ∧ dumps (.npInt n) = .ok (.num (n : ℚ))
      ∧ dumps (.npFloat q) = .ok (.num q)
      ∧ dumps (.npBool b) = .ok (.bool b)
      ∧ dumps (.dict [("metrics", .npInt n)])
          = .ok (.obj [("metrics", .num (n : ℚ))])
      ∧ to_builtin (.other s) = .error "TypeError"
      ∧ dumps (.other s) = .error "TypeError"
      ∧ dumps (.list [.other s]) = .error "TypeError" := by
  refine ⟨rfl, rfl, rfl, ?_, ?_, ?_, ?_, rfl, ?_, ?_⟩ <;>
    (simp only [dumps, dumpsArr, dumpsObj, to_builtin, encodeLeaf]; rfl)
